import Mathlib

/-!
# Verification of the live image resizer/compressor (`final_app.py`)

A shallow embedding of the session logic of `final_app.py`: the in-memory
image library (a Python dict in `st.session_state`), the two producers
(file upload, URL fetch), the live resize/encode path, the size metrics,
and the export-filename derivation.

External collaborators are environment parameters:
* PIL decoding (`Image.open`) is a `Decoder` argument; `none` models a
  raised decode exception,
* JPEG encoding (`img.save(..., format="JPEG")`) is an `Encoder` argument
  mapping (image, quality, optimize) to output bytes,
* the HTTP layer (`requests.get` / `raise_for_status`) is a `FetchOutcome`
  argument describing which of its disjoint outcomes occurred.

All state updates on the library are modelled by explicit state passing
over an insertion-ordered association list with Python-dict semantics.
-/

namespace ImagrorTool

/-- A decoded PIL raster: its `mode` string (e.g. `"RGB"`, `"RGBA"`, `"LA"`,
`"P"`, `"L"`), its dimensions, and an abstract identifier standing for the
pixel contents. -/
structure PILImage where
  mode : String
  width : Nat
  height : Nat
  pixels : Nat
deriving Repr, DecidableEq

/-- Raw input bytes (an uploaded file or an HTTP response body). -/
abbrev Bytes := List Nat

/-- Decoding via `PIL.Image.open`: an environment parameter. `none` models the
`UnidentifiedImageError` exception raised on undecodable bytes. -/
abbrev Decoder := Bytes → Option PILImage

/-- A JPEG encoder, environment parameter for `img.save(..., format="JPEG")`:
image, quality, optimize flag ↦ encoded bytes. -/
abbrev Encoder := PILImage → Nat → Bool → Bytes

/-- The session dict `st.session_state.image_library` (line 12): a Python dict from filename to
decoded image, modelled as an insertion-ordered association list whose keys
are unique in every reachable state. -/
abbrev Library := List (String × PILImage)

/-- Python `name in lib` (dict membership, line 27). -/
def dictContains (lib : Library) (k : String) : Bool :=
  lib.any (fun e => e.1 == k)

/-- Python `lib[name]` read (line 64), as an `Option` (a missing key would
raise `KeyError`, the spec's `NotFoundError`). -/
def dictGet? (lib : Library) (k : String) : Option PILImage :=
  (lib.find? (fun e => e.1 == k)).map (·.2)

/-- Python dict assignment `lib[k] = v` (lines 31 and 49): replaces the value
in place when the key exists, otherwise appends at the end (insertion order). -/
def dictSet (lib : Library) (k : String) (v : PILImage) : Library :=
  if dictContains lib k then
    lib.map (fun e => if e.1 == k then (k, v) else e)
  else
    lib ++ [(k, v)]

/-- Python `list(lib.keys())` (line 60). -/
def dictKeys (lib : Library) : List String :=
  lib.map (·.1)

/-- Python `len(lib)` (line 44). -/
def dictLen (lib : Library) : Nat :=
  lib.length

/-- Lines 29–30 and 46–48: `if image.mode == 'RGBA': image = image.convert('RGB')`.
Only the exact mode `"RGBA"` is converted; every other mode is stored as is. -/
def flattenIfRGBA (img : PILImage) : PILImage :=
  if img.mode == "RGBA" then { img with mode := "RGB" } else img

/-- One iteration of the upload loop (lines 25–31): skip if the filename is
already a key, otherwise decode, normalize and insert. A `.error` carries the
name of the item whose `Image.open` raised. -/
def uploadStep (decode : Decoder) (lib : Library) (item : String × Bytes) :
    Except String Library :=
  if dictContains lib item.1 then
    .ok lib
  else
    match decode item.2 with
    | none => .error item.1
    | some img => .ok (dictSet lib item.1 (flattenIfRGBA img))

/-- The upload ingestion loop (lines 24–32). There is no per-item exception
handling: a raised decode error aborts the loop, while mutations already made
to the session dict persist. Returns the resulting library and the name of
the item whose decode raised, if any. -/
def uploadBatch (decode : Decoder) (lib : Library) :
    List (String × Bytes) → Library × Option String
  | [] => (lib, none)
  | item :: rest =>
    match uploadStep decode lib item with
    | .error n => (lib, some n)
    | .ok lib' => uploadBatch decode lib' rest

/-- Outcome of `requests.get(url, stream=True)` followed by
`raise_for_status()` (lines 39–40): the connection failed, the status was an
HTTP error (4xx/5xx, so `raise_for_status` raised), or a body was obtained. -/
inductive FetchOutcome where
  | connError : FetchOutcome
  | httpError (status : Nat) : FetchOutcome
  | body (bytes : Bytes) : FetchOutcome
deriving Repr, DecidableEq

/-- Line 44: `url_filename = f"url_image_{len(st.session_state.image_library) + 1}.jpg"`,
applied to the current library size. -/
def urlFilename (count : Nat) : String :=
  "url_image_" ++ Nat.repr (count + 1) ++ ".jpg"

/-- The Fetch Image handler (lines 37–52). Every failure inside the `try`
block (connection error, HTTP error status, undecodable body) is caught and
shown via `st.error`; on success the generated name is assigned
unconditionally into the dict. The `Bool` is `true` for the success message,
`false` for the error message. -/
def fetchImage (decode : Decoder) (lib : Library) (oc : FetchOutcome) :
    Library × Bool :=
  match oc with
  | .connError => (lib, false)
  | .httpError _ => (lib, false)
  | .body bs =>
    match decode bs with
    | none => (lib, false)
    | some img =>
      let name := urlFilename (dictLen lib)
      (dictSet lib name (flattenIfRGBA img), true)

/-- A discrete user action that can mutate the library. -/
inductive SessionStep where
  | upload (items : List (String × Bytes)) : SessionStep
  | fetch (oc : FetchOutcome) : SessionStep

/-- The library after one user action. -/
def runStep (decode : Decoder) (lib : Library) : SessionStep → Library
  | .upload items => (uploadBatch decode lib items).1
  | .fetch oc => (fetchImage decode lib oc).1

/-- The library after a sequence of user actions. -/
def runSession (decode : Decoder) (lib : Library) : List SessionStep → Library
  | [] => lib
  | s :: rest => runSession decode (runStep decode lib s) rest

/-- The names generated at line 44 by one step (empty unless the step is a
fetch whose body decodes), each paired with the flag
`dictContains lib name` at the moment of generation. -/
def stepGenerated (decode : Decoder) (lib : Library) : SessionStep → List (String × Bool)
  | .upload _ => []
  | .fetch .connError => []
  | .fetch (.httpError _) => []
  | .fetch (.body bs) =>
    match decode bs with
    | none => []
    | some _ => [(urlFilename (dictLen lib), dictContains lib (urlFilename (dictLen lib)))]

/-- All names generated at line 44 along a run, in order, each paired with
whether the name was already a key when it was generated. -/
def generatedNames (decode : Decoder) (lib : Library) :
    List SessionStep → List (String × Bool)
  | [] => []
  | s :: rest =>
    stepGenerated decode lib s ++ generatedNames decode (runStep decode lib s) rest

/-- Encoding via `PIL.Image.save(buf, format="JPEG", quality=..., optimize=...)`: when the
`quality` keyword is omitted Pillow encodes at its documented default JPEG
quality 75, and `optimize` defaults to off. -/
def pilSaveJPEG (enc : Encoder) (img : PILImage) (quality : Option Nat)
    (optimize : Bool) : Bytes :=
  enc img (quality.getD 75) optimize

/-- Lines 74–75: the Estimated Size metric re-encodes the selected image via
`original_image.save(buf_temp, format="JPEG")` — with no quality argument —
and measures the buffer. -/
def estimatedSizeBytes (enc : Encoder) (img : PILImage) : Nat :=
  (pilSaveJPEG enc img none false).length

/-- Line 76: `len(buf_temp.getvalue())/1024` KB. Division by 1024 is exact in
IEEE binary floating point, so the rational value is faithful. -/
def estimatedSizeKB (enc : Encoder) (img : PILImage) : ℚ :=
  (estimatedSizeBytes enc img : ℚ) / 1024

/-- How the live-processing path can fail. `invalidParameter` is the spec's
`InvalidParameterError` (a rejection before the resize/encode engine runs);
`resizeError` is the `ValueError` PIL raises inside `resize` itself. The code
has no pre-validation, so only `resizeError` is ever produced. -/
inductive LiveError where
  | invalidParameter : LiveError
  | resizeError : LiveError
deriving Repr, DecidableEq

/-- Resizing via `PIL.Image.resize((w, h))` (line 95): raises `ValueError`
("height and width must be > 0") for non-positive target dimensions,
otherwise yields a raster with the requested dimensions and the same mode. -/
def pilResize (img : PILImage) (w h : Int) : Option PILImage :=
  if w ≤ 0 ∨ h ≤ 0 then none
  else some { img with width := w.toNat, height := h.toNat }

/-- Lines 93–101: the live processing path. The target dimensions from
`st.number_input` (which imposes no positivity bound) go straight into
`resize`; the result is encoded as JPEG at the user quality with
`optimize=True`. -/
def liveProcess (enc : Encoder) (img : PILImage) (w h : Int) (q : Nat) :
    Except LiveError (PILImage × Bytes) :=
  match pilResize img w h with
  | none => .error .resizeError
  | some r => .ok (r, enc r q true)

/-- Lines 114–115: `savings = original_size_kb - new_size_kb`, both sides in
KB. Division by 1024 and the subtraction of two exact binary floats are
sign-exact, so the rational model decides the same branch as the floats. -/
def savingsKB (origBytes newBytes : Nat) : ℚ :=
  (origBytes : ℚ) / 1024 - (newBytes : ℚ) / 1024

/-- Lines 116–119: `if savings > 0` shows the savings line, `else` shows the
size-increase warning. Returns `true` iff the warning branch is taken. -/
def showsSizeIncreaseWarning (origBytes newBytes : Nat) : Bool :=
  if savingsKB origBytes newBytes > 0 then false else true

/-- Python `s.rsplit('.', 1)[0]` (line 123): everything before the final
`'.'`, or the whole string when it has no `'.'`. -/
def rsplitLastHead (s : String) : String :=
  if s.data.contains '.' then
    String.mk ((((s.data.reverse).dropWhile (fun c => c != '.')).drop 1).reverse)
  else s

/-- Lines 122–125: the download filename `f"IMGROR_{clean_name}.jpg"`. -/
def finalFilename (selectedName : String) : String :=
  "IMGROR_" ++ rsplitLastHead selectedName ++ ".jpg"

/-- The entries of the library carrying a given name (Python dicts hold at
most one; stated over the association list so "exactly one entry" is a
theorem, not a convention). -/
def entriesFor (lib : Library) (k : String) : List (String × PILImage) :=
  lib.filter (fun e => e.1 == k)

/-- Spec-side predicate: PIL modes that carry a transparency channel
("RGBA, LA, or palette with transparency"). -/
def hasAlphaBand (mode : String) : Bool :=
  mode == "RGBA" || mode == "LA" || mode == "PA"

/-- Spec-side predicate: the opaque 3-channel stored form (PIL mode "RGB"). -/
def isOpaque3Channel (mode : String) : Bool :=
  mode == "RGB"

/-- No uploaded filename among the given actions starts with `"url_image_"`
(the stem of all generated fetch names). -/
def uploadsAvoidUrlNames (steps : List SessionStep) : Bool :=
  steps.all fun s =>
    match s with
    | .upload items => items.all (fun it => !("url_image_".data.isPrefixOf it.1.data))
    | .fetch _ => true

/-- Invariant justifying freshness of generated fetch names: every key of the
shape `url_image_<m+1>.jpg` was generated at some strictly smaller library
size, so its index is bounded by the current size. -/
def urlNameBound (lib : Library) : Prop :=
  ∀ m, dictContains lib (urlFilename m) = true → m < dictLen lib

/-- Reads a list of decimal digit characters back as a number; used to show
that decimal representations of distinct numbers differ. -/
def decRead (cs : List Char) : Nat :=
  cs.foldl (fun a c => a * 10 + (c.toNat - '0'.toNat)) 0

/-! ### Concrete sample inputs used by witnesses and counterexamples -/

/-- A sample opaque raster (a 400×300 RGB image). -/
def imgRGB : PILImage := ⟨"RGB", 400, 300, 1⟩

/-- A second, distinct opaque raster. -/
def imgRGB2 : PILImage := ⟨"RGB", 100, 100, 2⟩

/-- A grayscale raster with an alpha channel (PIL mode "LA"). -/
def imgLA : PILImage := ⟨"LA", 400, 300, 3⟩

/-- A raster with an alpha channel (PIL mode "RGBA"). -/
def imgRGBA : PILImage := ⟨"RGBA", 400, 300, 4⟩

/-- A sample decoder: byte-tag `[1]` decodes to `imgRGB`, `[2]` to `imgRGB2`,
`[3]` to `imgLA`, `[4]` to `imgRGBA`; anything else raises. -/
def sampleDecode : Decoder := fun bs =>
  match bs with
  | [1] => some imgRGB
  | [2] => some imgRGB2
  | [3] => some imgLA
  | [4] => some imgRGBA
  | _ => none

/-- A sample encoder whose output length equals the requested quality, so
encodes at different qualities are distinguishable. -/
def qualityLenEncoder : Encoder := fun _ q _ => List.replicate q 0

/-- A session in which an uploaded filename has the generated-name shape:
the upload takes the name `url_image_2.jpg` while the library is empty, and
two fetches follow at library size 1. -/
def stepsClash : List SessionStep :=
  [.upload [("url_image_2.jpg", [1])], .fetch (.body [2]), .fetch (.body [2])]

/-- A well-behaved session: one upload with an ordinary filename, then a
fetch. -/
def stepsMixed1 : List SessionStep :=
  [.upload [("photo.png", [1])], .fetch (.body [2])]

/-- A continuation of `stepsMixed1`: one more fetch. -/
def stepsMixed2 : List SessionStep :=
  [.fetch (.body [3])]

/-! ## Dict lemmas -/

theorem dictContains_iff_mem (lib : Library) (k : String) :
    dictContains lib k = true ↔ k ∈ dictKeys lib := by
  simp [dictContains, dictKeys, List.any_eq_true, List.mem_map]

theorem dictGet?_isSome_iff (lib : Library) (k : String) :
    (dictGet? lib k).isSome = true ↔ dictContains lib k = true := by
  simp [dictGet?, dictContains, List.find?_isSome, List.any_eq_true]

theorem keyFix (k : String) (v : PILImage) (e : String × PILImage) :
    ((if e.1 == k then (k, v) else e) : String × PILImage).1 = e.1 := by
  by_cases he : e.1 = k
  · simp [he]
  · simp [he]

theorem dictKeys_dictSet (lib : Library) (k : String) (v : PILImage) :
    dictKeys (dictSet lib k v) =
      if dictContains lib k then dictKeys lib else dictKeys lib ++ [k] := by
  cases hc : dictContains lib k
  · simp [dictSet, dictKeys, hc]
  · simp only [dictSet, hc, if_true, dictKeys, List.map_map]
    exact List.map_congr_left fun e _ => keyFix k v e

theorem dictLen_dictSet (lib : Library) (k : String) (v : PILImage) :
    dictLen (dictSet lib k v) =
      if dictContains lib k then dictLen lib else dictLen lib + 1 := by
  cases hc : dictContains lib k <;> simp [dictSet, dictLen, hc]

theorem dictContains_dictSet_iff (lib : Library) (k k' : String) (v : PILImage) :
    dictContains (dictSet lib k v) k' = true ↔ (k' = k ∨ dictContains lib k' = true) := by
  rw [dictContains_iff_mem, dictContains_iff_mem, dictKeys_dictSet]
  cases hc : dictContains lib k
  · simp only [Bool.false_eq_true, if_false, List.mem_append, List.mem_singleton]
    exact or_comm
  · simp only [if_true]
    constructor
    · exact Or.inr
    · rintro (rfl | h)
      · exact (dictContains_iff_mem lib k').mp hc
      · exact h

theorem dictContains_dictSet_of (lib : Library) (k k' : String) (v : PILImage)
    (h : dictContains lib k' = true) :
    dictContains (dictSet lib k v) k' = true :=
  (dictContains_dictSet_iff lib k k' v).mpr (Or.inr h)

theorem dictSet_eq_overwrite (lib : Library) (k : String) (v : PILImage)
    (hc : dictContains lib k = true) :
    dictSet lib k v = lib.map (fun e => if e.1 == k then (k, v) else e) := by
  unfold dictSet
  rw [if_pos hc]

theorem dictSet_eq_append (lib : Library) (k : String) (v : PILImage)
    (hc : dictContains lib k = false) :
    dictSet lib k v = lib ++ [(k, v)] := by
  unfold dictSet
  rw [if_neg (by simp [hc])]

theorem find?_overwrite (lib : Library) (k : String) (v : PILImage)
    (hc : dictContains lib k = true) :
    (lib.map (fun e => if e.1 == k then (k, v) else e)).find? (fun e => e.1 == k) =
      some (k, v) := by
  induction lib with
  | nil => simp [dictContains] at hc
  | cons e es ih =>
    by_cases he : e.1 = k
    · simp [he]
    · have hc' : dictContains es k = true := by
        simp only [dictContains, List.any_cons] at hc
        rcases Bool.or_eq_true_iff.mp hc with h | h
        · exact absurd (eq_of_beq h) he
        · exact h
      simpa [he] using ih hc'

theorem dictGet?_dictSet_self (lib : Library) (k : String) (v : PILImage) :
    dictGet? (dictSet lib k v) k = some v := by
  cases hc : dictContains lib k
  · have hnone : lib.find? (fun e => e.1 == k) = none := by
      rw [List.find?_eq_none]
      intro e he hek
      have : dictContains lib k = true := by
        simp only [dictContains, List.any_eq_true]
        exact ⟨e, he, hek⟩
      simp [this] at hc
    rw [dictSet_eq_append lib k v hc]
    unfold dictGet?
    rw [List.find?_append, hnone, Option.none_or, List.find?_cons]
    simp
  · rw [dictSet_eq_overwrite lib k v hc]
    unfold dictGet?
    rw [find?_overwrite lib k v hc]
    rfl

theorem find?_overwrite_ne (lib : Library) (k k' : String) (v : PILImage)
    (hne : k' ≠ k) :
    (lib.map (fun e => if e.1 == k then (k, v) else e)).find? (fun e => e.1 == k') =
      lib.find? (fun e => e.1 == k') := by
  induction lib with
  | nil => rfl
  | cons e es ih =>
    by_cases he : e.1 = k
    · have h1 : (k == k') = false := beq_eq_false_iff_ne.mpr fun h => hne h.symm
      have h2 : (e.1 == k') = false := by
        rw [he]; exact h1
      simp only [List.map_cons, if_pos (by simp [he] : (e.1 == k) = true)]
      rw [List.find?_cons_of_neg _ (by simp [h1]), List.find?_cons_of_neg _ (by simp [h2])]
      exact ih
    · simp only [List.map_cons, if_neg (by simp [he] : ¬(e.1 == k) = true)]
      cases hek : (e.1 == k')
      · rw [List.find?_cons_of_neg _ (by simp [hek]), List.find?_cons_of_neg _ (by simp [hek])]
        exact ih
      · rw [List.find?_cons, List.find?_cons]
        simp only [hek]

theorem dictGet?_dictSet_ne (lib : Library) (k k' : String) (v : PILImage)
    (hne : k' ≠ k) :
    dictGet? (dictSet lib k v) k' = dictGet? lib k' := by
  cases hc : dictContains lib k
  · have hkv : List.find? (fun e => e.1 == k') [((k, v) : String × PILImage)] = none := by
      rw [List.find?_eq_none]
      intro e he
      simp at he
      simp [he, beq_eq_false_iff_ne.mpr fun h => hne h.symm]
    rw [dictSet_eq_append lib k v hc]
    unfold dictGet?
    rw [List.find?_append, hkv, Option.or_none]
  · rw [dictSet_eq_overwrite lib k v hc]
    unfold dictGet?
    rw [find?_overwrite_ne lib k k' v hne]

/-! ## Producer and session lemmas -/

theorem uploadBatch_cons_skip (decode : Decoder) (lib : Library) (item : String × Bytes)
    (rest : List (String × Bytes)) (hc : dictContains lib item.1 = true) :
    uploadBatch decode lib (item :: rest) = uploadBatch decode lib rest := by
  simp [uploadBatch, uploadStep, hc]

theorem uploadBatch_cons_insert (decode : Decoder) (lib : Library) (item : String × Bytes)
    (rest : List (String × Bytes)) (hc : dictContains lib item.1 = false)
    (img : PILImage) (hd : decode item.2 = some img) :
    uploadBatch decode lib (item :: rest) =
      uploadBatch decode (dictSet lib item.1 (flattenIfRGBA img)) rest := by
  simp [uploadBatch, uploadStep, hc, hd]

theorem uploadBatch_cons_abort (decode : Decoder) (lib : Library) (item : String × Bytes)
    (rest : List (String × Bytes)) (hc : dictContains lib item.1 = false)
    (hd : decode item.2 = none) :
    uploadBatch decode lib (item :: rest) = (lib, some item.1) := by
  simp [uploadBatch, uploadStep, hc, hd]

theorem uploadBatch_contains_mono (decode : Decoder) (items : List (String × Bytes)) :
    ∀ lib k, dictContains lib k = true →
      dictContains (uploadBatch decode lib items).1 k = true := by
  induction items with
  | nil => intro lib k h; exact h
  | cons item rest ih =>
    intro lib k h
    cases hc : dictContains lib item.1
    · cases hd : decode item.2 with
      | none => rw [uploadBatch_cons_abort decode lib item rest hc hd]; exact h
      | some img =>
        rw [uploadBatch_cons_insert decode lib item rest hc img hd]
        exact ih _ _ (dictContains_dictSet_of _ _ _ _ h)
    · rw [uploadBatch_cons_skip decode lib item rest hc]
      exact ih _ _ h

theorem uploadBatch_get_frozen (decode : Decoder) (items : List (String × Bytes)) :
    ∀ lib k, dictContains lib k = true →
      dictGet? (uploadBatch decode lib items).1 k = dictGet? lib k := by
  induction items with
  | nil => intro lib k _; rfl
  | cons item rest ih =>
    intro lib k h
    cases hc : dictContains lib item.1
    · cases hd : decode item.2 with
      | none => rw [uploadBatch_cons_abort decode lib item rest hc hd]
      | some img =>
        have hne : k ≠ item.1 := fun he => by rw [he, hc] at h; cases h
        rw [uploadBatch_cons_insert decode lib item rest hc img hd,
          ih _ _ (dictContains_dictSet_of _ _ _ _ h),
          dictGet?_dictSet_ne lib item.1 k _ hne]
    · rw [uploadBatch_cons_skip decode lib item rest hc]
      exact ih _ _ h

theorem runStep_contains_mono (decode : Decoder) (lib : Library) (s : SessionStep) (k : String)
    (h : dictContains lib k = true) :
    dictContains (runStep decode lib s) k = true := by
  cases s with
  | upload items => exact uploadBatch_contains_mono decode items lib k h
  | fetch oc =>
    cases oc with
    | connError => exact h
    | httpError status => exact h
    | body bs =>
      cases hd : decode bs with
      | none => simpa [runStep, fetchImage, hd] using h
      | some img =>
        simp only [runStep, fetchImage, hd]
        exact dictContains_dictSet_of _ _ _ _ h

theorem runSession_append (decode : Decoder) (a b : List SessionStep) :
    ∀ lib, runSession decode lib (a ++ b) = runSession decode (runSession decode lib a) b := by
  induction a with
  | nil => intro lib; rfl
  | cons s rest ih => intro lib; exact ih (runStep decode lib s)

theorem runSession_contains_mono (decode : Decoder) (steps : List SessionStep) :
    ∀ lib k, dictContains lib k = true →
      dictContains (runSession decode lib steps) k = true := by
  induction steps with
  | nil => intro lib k h; exact h
  | cons s rest ih =>
    intro lib k h
    exact ih _ _ (runStep_contains_mono decode lib s k h)

/-! ## Decimal representations of distinct numbers differ -/

theorem toDigitsCore_step (fuel n : Nat) (ds : List Char) :
    Nat.toDigitsCore 10 (fuel + 1) n ds =
      (if n / 10 = 0 then Nat.digitChar (n % 10) :: ds
       else Nat.toDigitsCore 10 fuel (n / 10) (Nat.digitChar (n % 10) :: ds)) := rfl

theorem toDigitsCore_shift (fuel : Nat) :
    ∀ n ds, Nat.toDigitsCore 10 fuel n ds = Nat.toDigitsCore 10 fuel n [] ++ ds := by
  induction fuel with
  | zero => intro n ds; rfl
  | succ fuel ih =>
    intro n ds
    rw [toDigitsCore_step, toDigitsCore_step]
    by_cases h : n / 10 = 0
    · rw [if_pos h, if_pos h]
      rfl
    · rw [if_neg h, if_neg h, ih (n / 10) (Nat.digitChar (n % 10) :: ds),
        ih (n / 10) [Nat.digitChar (n % 10)]]
      simp

theorem toDigitsCore_fuel_free :
    ∀ n fuel₁ fuel₂, n < fuel₁ → n < fuel₂ →
      Nat.toDigitsCore 10 fuel₁ n [] = Nat.toDigitsCore 10 fuel₂ n [] := by
  intro n
  induction n using Nat.strong_induction_on with
  | _ n ih =>
    intro fuel₁ fuel₂ h₁ h₂
    cases fuel₁ with
    | zero => omega
    | succ f₁ =>
      cases fuel₂ with
      | zero => omega
      | succ f₂ =>
        rw [toDigitsCore_step, toDigitsCore_step]
        by_cases h : n / 10 = 0
        · rw [if_pos h, if_pos h]
        · rw [if_neg h, if_neg h, toDigitsCore_shift f₁, toDigitsCore_shift f₂,
            ih (n / 10) (by omega) f₁ f₂ (by omega) (by omega)]

theorem decRead_append (l : List Char) (c : Char) :
    decRead (l ++ [c]) = decRead l * 10 + (c.toNat - '0'.toNat) := by
  simp [decRead, List.foldl_append]

theorem digitChar_readback (n : Nat) (h : n < 10) :
    (Nat.digitChar n).toNat - '0'.toNat = n := by
  interval_cases n <;> decide

theorem decRead_toDigitsCore :
    ∀ n, decRead (Nat.toDigitsCore 10 (n + 1) n []) = n := by
  intro n
  induction n using Nat.strong_induction_on with
  | _ n ih =>
    rw [toDigitsCore_step]
    by_cases h : n / 10 = 0
    · rw [if_pos h]
      simp only [decRead, List.foldl_cons, List.foldl_nil]
      rw [digitChar_readback (n % 10) (by omega)]
      omega
    · rw [if_neg h, toDigitsCore_shift,
        toDigitsCore_fuel_free (n / 10) n (n / 10 + 1) (by omega) (by omega),
        decRead_append, ih (n / 10) (by omega),
        digitChar_readback (n % 10) (by omega)]
      omega

theorem reprInj {m n : Nat} (h : Nat.repr m = Nat.repr n) : m = n := by
  have hd : Nat.toDigitsCore 10 (m + 1) m [] = Nat.toDigitsCore 10 (n + 1) n [] :=
    congrArg String.data h
  have hm := decRead_toDigitsCore m
  rw [hd] at hm
  exact hm.symm.trans (decRead_toDigitsCore n)

theorem urlFilename_data (count : Nat) :
    (urlFilename count).data =
      "url_image_".data ++ ((Nat.repr (count + 1)).data ++ ".jpg".data) := by
  simp [urlFilename, String.data_append]

theorem urlFilename_inj {a b : Nat} (h : urlFilename a = urlFilename b) : a = b := by
  have hd := congrArg String.data h
  rw [urlFilename_data, urlFilename_data] at hd
  have h1 := List.append_cancel_left hd
  have h2 := List.append_cancel_right h1
  have : (a + 1) = (b + 1) := reprInj (String.ext h2)
  omega

theorem urlStem_leads_urlFilename (count : Nat) :
    "url_image_".data.isPrefixOf (urlFilename count).data = true := by
  rw [urlFilename_data, List.isPrefixOf_iff_prefix]
  exact List.prefix_append _ _

/-! ## Freshness of generated fetch names -/

theorem urlNameBound_nil : urlNameBound [] := by
  intro m h
  simp [dictContains] at h

theorem avoid_ne_urlFilename (nm : String)
    (h : "url_image_".data.isPrefixOf nm.data = false) (m : Nat) :
    nm ≠ urlFilename m := by
  intro he
  rw [he, urlStem_leads_urlFilename m] at h
  cases h

theorem fetch_name_fresh (lib : Library) (hb : urlNameBound lib) :
    dictContains lib (urlFilename (dictLen lib)) = false := by
  cases hc : dictContains lib (urlFilename (dictLen lib))
  · rfl
  · exact absurd (hb _ hc) (lt_irrefl _)

theorem urlNameBound_insert (lib : Library) (v : PILImage) (hb : urlNameBound lib) :
    urlNameBound (dictSet lib (urlFilename (dictLen lib)) v) := by
  intro m h
  rw [dictLen_dictSet, fetch_name_fresh lib hb]
  simp only [Bool.false_eq_true, if_false]
  rcases (dictContains_dictSet_iff _ _ _ _).mp h with he | hold
  · rw [urlFilename_inj he]
    omega
  · exact Nat.lt_succ_of_lt (hb _ hold)

theorem urlNameBound_insert_plain (lib : Library) (nm : String) (v : PILImage)
    (hnm : "url_image_".data.isPrefixOf nm.data = false)
    (hb : urlNameBound lib) :
    urlNameBound (dictSet lib nm v) := by
  intro m h
  rcases (dictContains_dictSet_iff _ _ _ _).mp h with he | hold
  · exact absurd he.symm (avoid_ne_urlFilename nm hnm m)
  · have hlt := hb _ hold
    rw [dictLen_dictSet]
    cases hc : dictContains lib nm
    · simp only [Bool.false_eq_true, if_false]
      omega
    · simp only [if_true]
      exact hlt

theorem urlNameBound_uploadBatch (decode : Decoder) (items : List (String × Bytes)) :
    ∀ lib, urlNameBound lib →
      (items.all fun it => !("url_image_".data.isPrefixOf it.1.data)) = true →
      urlNameBound (uploadBatch decode lib items).1 := by
  induction items with
  | nil => intro lib hb _; exact hb
  | cons item rest ih =>
    intro lib hb hav
    rw [List.all_cons, Bool.and_eq_true] at hav
    obtain ⟨h1, h2⟩ := hav
    have h1' : "url_image_".data.isPrefixOf item.1.data = false := by
      simpa using h1
    cases hc : dictContains lib item.1
    · cases hd : decode item.2 with
      | none => rw [uploadBatch_cons_abort decode lib item rest hc hd]; exact hb
      | some img =>
        rw [uploadBatch_cons_insert decode lib item rest hc img hd]
        exact ih _ (urlNameBound_insert_plain lib item.1 _ h1' hb) h2
    · rw [uploadBatch_cons_skip decode lib item rest hc]
      exact ih _ hb h2

theorem uploadsAvoid_cons {s : SessionStep} {rest : List SessionStep}
    (h : uploadsAvoidUrlNames (s :: rest) = true) :
    uploadsAvoidUrlNames [s] = true ∧ uploadsAvoidUrlNames rest = true := by
  unfold uploadsAvoidUrlNames at h ⊢
  rw [List.all_cons, Bool.and_eq_true] at h
  refine ⟨?_, h.2⟩
  rw [List.all_cons, List.all_nil, Bool.and_true]
  exact h.1

theorem urlNameBound_runStep (decode : Decoder) (lib : Library) (s : SessionStep)
    (hb : urlNameBound lib) (hav : uploadsAvoidUrlNames [s] = true) :
    urlNameBound (runStep decode lib s) := by
  cases s with
  | upload items =>
    apply urlNameBound_uploadBatch decode items lib hb
    simpa [uploadsAvoidUrlNames] using hav
  | fetch oc =>
    cases oc with
    | connError => exact hb
    | httpError status => exact hb
    | body bs =>
      cases hd : decode bs with
      | none => simpa [runStep, fetchImage, hd] using hb
      | some img =>
        simp only [runStep, fetchImage, hd]
        exact urlNameBound_insert lib _ hb

theorem runSession_get_frozen (decode : Decoder) (steps : List SessionStep) :
    ∀ lib k v, urlNameBound lib → uploadsAvoidUrlNames steps = true →
      dictGet? lib k = some v →
      dictGet? (runSession decode lib steps) k = some v := by
  induction steps with
  | nil => intro lib k v _ _ h; exact h
  | cons s rest ih =>
    intro lib k v hb hav hg
    obtain ⟨hav1, hav2⟩ := uploadsAvoid_cons hav
    have hcont : dictContains lib k = true := by
      rw [← dictGet?_isSome_iff, hg]
      rfl
    apply ih _ _ _ (urlNameBound_runStep decode lib s hb hav1) hav2
    cases s with
    | upload items =>
      rw [show runStep decode lib (.upload items) = (uploadBatch decode lib items).1 from rfl,
        uploadBatch_get_frozen decode items lib k hcont]
      exact hg
    | fetch oc =>
      cases oc with
      | connError => exact hg
      | httpError status => exact hg
      | body bs =>
        cases hd : decode bs with
        | none => simpa [runStep, fetchImage, hd] using hg
        | some img =>
          simp only [runStep, fetchImage, hd]
          have hne : k ≠ urlFilename (dictLen lib) := by
            intro he
            rw [he, fetch_name_fresh lib hb] at hcont
            cases hcont
          rw [dictGet?_dictSet_ne lib _ k _ hne]
          exact hg

theorem generatedNames_good (decode : Decoder) (steps : List SessionStep) :
    ∀ lib, urlNameBound lib → uploadsAvoidUrlNames steps = true →
      (∀ e ∈ generatedNames decode lib steps, e.2 = false) ∧
      ((generatedNames decode lib steps).map Prod.fst).Nodup ∧
      (∀ e ∈ generatedNames decode lib steps, dictContains lib e.1 = false) := by
  induction steps with
  | nil =>
    intro lib _ _
    refine ⟨?_, ?_, ?_⟩ <;> simp [generatedNames]
  | cons s rest ih =>
    intro lib hb hav
    obtain ⟨hav1, hav2⟩ := uploadsAvoid_cons hav
    obtain ⟨ihflag, ihnodup, ihfresh⟩ :=
      ih (runStep decode lib s) (urlNameBound_runStep decode lib s hb hav1) hav2
    have hdown : ∀ e, e ∈ generatedNames decode (runStep decode lib s) rest →
        dictContains lib e.1 = false := by
      intro e he
      cases hcl : dictContains lib e.1
      · rfl
      · have hmono := runStep_contains_mono decode lib s e.1 hcl
        rw [ihfresh e he] at hmono
        cases hmono
    have hnil : stepGenerated decode lib s = [] →
        (∀ e ∈ generatedNames decode lib (s :: rest), e.2 = false) ∧
        ((generatedNames decode lib (s :: rest)).map Prod.fst).Nodup ∧
        (∀ e ∈ generatedNames decode lib (s :: rest), dictContains lib e.1 = false) := by
      intro hsg
      simp only [generatedNames, hsg, List.nil_append]
      exact ⟨ihflag, ihnodup, hdown⟩
    cases s with
    | upload items => exact hnil rfl
    | fetch oc =>
      cases oc with
      | connError => exact hnil rfl
      | httpError status => exact hnil rfl
      | body bs =>
        cases hd : decode bs with
        | none => exact hnil (by simp [stepGenerated, hd])
        | some img =>
          have hfresh := fetch_name_fresh lib hb
          have hsg : stepGenerated decode lib (.fetch (.body bs)) =
              [(urlFilename (dictLen lib), false)] := by
            simp [stepGenerated, hd, hfresh]
          have hgin : dictContains (runStep decode lib (.fetch (.body bs)))
              (urlFilename (dictLen lib)) = true := by
            simp only [runStep, fetchImage, hd]
            exact (dictContains_dictSet_iff _ _ _ _).mpr (Or.inl rfl)
          simp only [generatedNames, hsg, List.cons_append, List.nil_append]
          refine ⟨?_, ?_, ?_⟩
          · intro e he
            rcases List.mem_cons.mp he with rfl | he'
            · rfl
            · exact ihflag e he'
          · rw [List.map_cons, List.nodup_cons]
            refine ⟨?_, ihnodup⟩
            intro hmem
            obtain ⟨e, he, heq⟩ := List.mem_map.mp hmem
            have := ihfresh e he
            rw [heq, hgin] at this
            cases this
          · intro e he
            rcases List.mem_cons.mp he with rfl | he'
            · exact hfresh
            · exact hdown e he'

/-! ## Filename-derivation lemmas -/

theorem dropWhile_until_dot (r : List Char) :
    ∀ l, (∀ c ∈ l, c ≠ '.') →
      (l ++ '.' :: r).dropWhile (fun c => c != '.') = '.' :: r := by
  intro l
  induction l with
  | nil =>
    intro _
    rw [List.nil_append, List.dropWhile_cons, if_neg (by simp)]
  | cons c cs ih =>
    intro h
    have hc : (c != '.') = true := bne_iff_ne.mpr (h c (List.mem_cons_self c cs))
    rw [List.cons_append, List.dropWhile_cons, if_pos hc]
    exact ih fun c' hc' => h c' (List.mem_cons_of_mem _ hc')

theorem rsplitLastHead_nodot (s : String) (h : s.data.contains '.' = false) :
    rsplitLastHead s = s := by
  unfold rsplitLastHead
  rw [if_neg (by rw [h]; exact Bool.false_ne_true)]

theorem split_data (p q : String) :
    (p ++ "." ++ q).data = p.data ++ '.' :: q.data := by
  rw [String.data_append, String.data_append]
  simp

theorem rsplitLastHead_split (p q : String) (hq : q.data.contains '.' = false) :
    rsplitLastHead (p ++ "." ++ q) = p := by
  have hcontains : (p ++ "." ++ q).data.contains '.' = true := by
    rw [split_data]
    simp
  have hq' : ∀ c ∈ q.data.reverse, c ≠ '.' := by
    intro c hc he
    subst he
    have : '.' ∈ q.data := List.mem_reverse.mp hc
    simp [this] at hq
  unfold rsplitLastHead
  rw [if_pos hcontains]
  apply String.ext
  show ((((p ++ "." ++ q).data.reverse).dropWhile (fun c => c != '.')).drop 1).reverse = p.data
  have hrev : (p ++ "." ++ q).data.reverse = q.data.reverse ++ '.' :: p.data.reverse := by
    rw [split_data]
    simp
  rw [hrev, dropWhile_until_dot p.data.reverse q.data.reverse hq', List.drop_one,
    List.tail_cons, List.reverse_reverse]

/-! ## Entry-count lemmas -/

theorem entriesFor_nil_of_not_contains (lib : Library) (k : String)
    (hc : dictContains lib k = false) : entriesFor lib k = [] := by
  unfold entriesFor
  rw [List.filter_eq_nil_iff]
  intro e he hek
  have : dictContains lib k = true := by
    simp only [dictContains, List.any_eq_true]
    exact ⟨e, he, hek⟩
  rw [this] at hc
  cases hc

theorem entriesFor_length_one (k : String) :
    ∀ lib : Library, (dictKeys lib).Nodup → dictContains lib k = true →
      (entriesFor lib k).length = 1 := by
  intro lib
  induction lib with
  | nil => intro _ hc; simp [dictContains] at hc
  | cons e es ih =>
    intro hnd hc
    simp only [dictKeys, List.map_cons, List.nodup_cons] at hnd
    obtain ⟨hnotin, hnd'⟩ := hnd
    by_cases he : e.1 = k
    · have hces : dictContains es k = false := by
        cases hcc : dictContains es k
        · rfl
        · exfalso
          apply hnotin
          rw [he]
          exact (dictContains_iff_mem es k).mp hcc
      unfold entriesFor
      rw [List.filter_cons, if_pos (by simp [he])]
      rw [show (es.filter fun e => e.1 == k) = entriesFor es k from rfl,
        entriesFor_nil_of_not_contains es k hces]
      rfl
    · have hces : dictContains es k = true := by
        simp only [dictContains, List.any_cons] at hc
        rcases Bool.or_eq_true_iff.mp hc with h | h
        · exact absurd (eq_of_beq h) he
        · exact h
      unfold entriesFor
      rw [List.filter_cons, if_neg (by simp [he])]
      exact ih hnd' hces

/-! ## Abort behaviour of the upload loop -/

theorem uploadBatch_aborts (decode : Decoder) (pre : List (String × Bytes)) :
    ∀ lib (item : String × Bytes) (post : List (String × Bytes)),
      (uploadBatch decode lib pre).2 = none →
      dictContains (uploadBatch decode lib pre).1 item.1 = false →
      decode item.2 = none →
      uploadBatch decode lib (pre ++ item :: post) =
        ((uploadBatch decode lib pre).1, some item.1) := by
  induction pre with
  | nil =>
    intro lib item post _ h2 h3
    rw [List.nil_append]
    exact uploadBatch_cons_abort decode lib item post h2 h3
  | cons p ps ih =>
    intro lib item post h1 h2 h3
    cases hc : dictContains lib p.1
    · cases hd : decode p.2 with
      | none =>
        rw [uploadBatch_cons_abort decode lib p ps hc hd] at h1
        cases h1
      | some img =>
        rw [uploadBatch_cons_insert decode lib p ps hc img hd] at h1 h2
        rw [List.cons_append,
          uploadBatch_cons_insert decode lib p (ps ++ item :: post) hc img hd,
          ih _ item post h1 h2 h3,
          uploadBatch_cons_insert decode lib p ps hc img hd]
    · rw [uploadBatch_cons_skip decode lib p ps hc] at h1 h2
      rw [List.cons_append,
        uploadBatch_cons_skip decode lib p (ps ++ item :: post) hc,
        ih _ item post h1 h2 h3,
        uploadBatch_cons_skip decode lib p ps hc]

theorem uploadsAvoid_append {a b : List SessionStep}
    (h : uploadsAvoidUrlNames (a ++ b) = true) :
    uploadsAvoidUrlNames a = true ∧ uploadsAvoidUrlNames b = true := by
  unfold uploadsAvoidUrlNames at h ⊢
  rw [List.all_append, Bool.and_eq_true] at h
  exact h

theorem urlNameBound_runSession (decode : Decoder) (steps : List SessionStep) :
    ∀ lib, urlNameBound lib → uploadsAvoidUrlNames steps = true →
      urlNameBound (runSession decode lib steps) := by
  induction steps with
  | nil => intro lib hb _; exact hb
  | cons s rest ih =>
    intro lib hb hav
    obtain ⟨hav1, hav2⟩ := uploadsAvoid_cons hav
    exact ih _ (urlNameBound_runStep decode lib s hb hav1) hav2

/-! ## Claims

One theorem per claim of the specification; counterexamples and witnesses
are closed statements over the concrete sample inputs defined above. -/

/-- C1 counterexample: in the session `stepsClash` — upload a file named
`url_image_2.jpg` into the empty library, then fetch twice — both fetches
generate the name `url_image_2.jpg` at line 44, which is already a key at
generation time (flag `true`), the two generated names coincide, and the
fetch assignment overwrites the uploaded entry (the stored value changes
from `imgRGB` to `imgRGB2`). This refutes the no-overwrite invariant and
the freshness and pairwise distinctness of URL-generated names. -/
theorem c1_counterexample :
    generatedNames sampleDecode [] stepsClash =
      [("url_image_2.jpg", true), ("url_image_2.jpg", true)] ∧
    dictGet? (runSession sampleDecode [] stepsClash) "url_image_2.jpg" = some imgRGB2 ∧
    imgRGB2 ≠ flattenIfRGBA imgRGB := by
  refine ⟨?_, ?_, ?_⟩ <;> decide

/-- C1 amended: the upload path never overwrites (duplicate filenames are
skipped), and provided no uploaded filename starts with `url_image_`, every
name generated for a URL fetch is fresh (not a key at generation time), the
generated names of a session are pairwise distinct, and no entry of the
library is ever overwritten: a value visible after `steps1` is still the
value at that key after any continuation `steps2`. -/
theorem c1_amended (decode : Decoder) (steps1 steps2 : List SessionStep)
    (k : String) (v : PILImage)
    (hav : uploadsAvoidUrlNames (steps1 ++ steps2) = true) :
    (∀ e ∈ generatedNames decode [] (steps1 ++ steps2), e.2 = false) ∧
    ((generatedNames decode [] (steps1 ++ steps2)).map Prod.fst).Nodup ∧
    (dictGet? (runSession decode [] steps1) k = some v →
      dictGet? (runSession decode [] (steps1 ++ steps2)) k = some v) := by
  obtain ⟨hflag, hnodup, _⟩ :=
    generatedNames_good decode (steps1 ++ steps2) [] urlNameBound_nil hav
  obtain ⟨hav1, hav2⟩ := uploadsAvoid_append hav
  refine ⟨hflag, hnodup, ?_⟩
  intro hg
  rw [runSession_append]
  exact runSession_get_frozen decode steps2 _ k v
    (urlNameBound_runSession decode steps1 [] urlNameBound_nil hav1) hav2 hg

/-- C1 witness: the amended claim instantiated on a concrete session — an
upload of `photo.png` and a fetch, continued by one more fetch. -/
theorem c1_amended_witness :
    (∀ e ∈ generatedNames sampleDecode [] (stepsMixed1 ++ stepsMixed2), e.2 = false) ∧
    ((generatedNames sampleDecode [] (stepsMixed1 ++ stepsMixed2)).map Prod.fst).Nodup ∧
    (dictGet? (runSession sampleDecode [] stepsMixed1) "photo.png" = some imgRGB →
      dictGet? (runSession sampleDecode [] (stepsMixed1 ++ stepsMixed2)) "photo.png" =
        some imgRGB) :=
  c1_amended sampleDecode stepsMixed1 stepsMixed2 "photo.png" imgRGB (by decide)

/-- C2 counterexample: with an encoder whose output length equals the
requested quality, the Estimated Size metric (which calls `save` with no
quality argument, hence Pillow's default 75) differs from the value the
claim specifies (a re-encode at the fixed baseline quality 85). -/
theorem c2_counterexample :
    estimatedSizeKB qualityLenEncoder imgRGB ≠
      ((qualityLenEncoder imgRGB 85 false).length : ℚ) / 1024 := by
  simp only [estimatedSizeKB, estimatedSizeBytes, pilSaveJPEG, qualityLenEncoder,
    Option.getD, List.length_replicate]
  norm_num

/-- C2 amended: the displayed approximate original size re-encodes the source
as JPEG at the encoder's default quality 75 (the code passes no quality
argument), and equals the byte length of that default-quality encode divided
by 1024. -/
theorem c2_amended (enc : Encoder) (img : PILImage) :
    estimatedSizeKB enc img = ((enc img 75 false).length : ℚ) / 1024 := rfl

/-- C3 counterexample: in the batch `a.png, bad.png, c.png`, where `bad.png`
fails to decode, the loop aborts: `a.png` is inserted, but `c.png` is never
processed, contradicting per-item failure isolation. -/
theorem c3_counterexample :
    uploadBatch sampleDecode [] [("a.png", [1]), ("bad.png", [0]), ("c.png", [1])] =
      ([("a.png", imgRGB)], some "bad.png") ∧
    dictContains (uploadBatch sampleDecode []
      [("a.png", [1]), ("bad.png", [0]), ("c.png", [1])]).1 "c.png" = false := by
  refine ⟨?_, ?_⟩ <;> decide

/-- C3 amended: a decode failure on one item raises out of the upload loop:
items before the failing one that were inserted remain inserted, the failing
item's name is carried by the raised exception, and no later item of the
batch is processed (the library is exactly the library reached just before
the failing item). -/
theorem c3_amended (decode : Decoder) (lib : Library) (pre : List (String × Bytes))
    (item : String × Bytes) (post : List (String × Bytes))
    (h1 : (uploadBatch decode lib pre).2 = none)
    (h2 : dictContains (uploadBatch decode lib pre).1 item.1 = false)
    (h3 : decode item.2 = none) :
    uploadBatch decode lib (pre ++ item :: post) =
      ((uploadBatch decode lib pre).1, some item.1) :=
  uploadBatch_aborts decode pre lib item post h1 h2 h3

/-- C3 witness: the amended claim at the concrete aborting batch. -/
theorem c3_amended_witness :
    uploadBatch sampleDecode [] ([("a.png", [1])] ++ ("bad.png", [0]) :: [("c.png", [1])]) =
      ((uploadBatch sampleDecode [] [("a.png", [1])]).1, some "bad.png") :=
  c3_amended sampleDecode [] [("a.png", [1])] ("bad.png", [0]) [("c.png", [1])]
    (by decide) (by decide) (by decide)

/-- C4 counterexample: a request with `targetWidth = 0` is not rejected with
the spec's `InvalidParameterError`: the code performs no validation and the
failure happens inside the resize call itself. -/
theorem c4_counterexample :
    liveProcess qualityLenEncoder imgRGB 0 300 85 ≠
      Except.error LiveError.invalidParameter := by
  simp [liveProcess, pilResize]

/-- C4 amended: non-positive target dimensions are passed straight into the
resize call; there is no pre-validation, and the resulting error is the
`ValueError` raised inside PIL's resize, not a rejection before the engine. -/
theorem c4_amended (enc : Encoder) (img : PILImage) (w h : Int) (q : Nat)
    (hwh : w ≤ 0 ∨ h ≤ 0) :
    liveProcess enc img w h q = Except.error LiveError.resizeError := by
  unfold liveProcess pilResize
  rw [if_pos hwh]

/-- C4 witness: the amended claim at width 0. -/
theorem c4_amended_witness :
    liveProcess qualityLenEncoder imgRGB 0 300 85 = Except.error LiveError.resizeError :=
  c4_amended qualityLenEncoder imgRGB 0 300 85 (Or.inl (by norm_num))

/-- C5 counterexample: an uploaded image in mode `LA` (grayscale with alpha)
is stored unchanged — still carrying a transparency channel and not in an
opaque 3-channel form — because lines 29–30 convert only the exact mode
`RGBA`. -/
theorem c5_counterexample :
    dictGet? (runSession sampleDecode [] [SessionStep.upload [("gray.png", [3])]])
      "gray.png" = some imgLA ∧
    hasAlphaBand imgLA.mode = true ∧
    isOpaque3Channel imgLA.mode = false := by
  refine ⟨?_, ?_, ?_⟩ <;> decide

/-- C5 amended: both producers store `flattenIfRGBA` of the decoded image,
which converts mode `RGBA` (and only mode `RGBA`) to `RGB`; every other
mode, including transparency-carrying `LA`, is stored as decoded. -/
theorem c5_amended (decode : Decoder) (lib : Library) (n : String) (b bs : Bytes)
    (img imgF : PILImage) (hn : dictContains lib n = false)
    (hb : decode b = some img) (hbs : decode bs = some imgF) :
    (flattenIfRGBA img).mode = (if img.mode = "RGBA" then "RGB" else img.mode) ∧
    dictGet? (uploadBatch decode lib [(n, b)]).1 n = some (flattenIfRGBA img) ∧
    dictGet? (fetchImage decode lib (.body bs)).1 (urlFilename (dictLen lib)) =
      some (flattenIfRGBA imgF) := by
  refine ⟨?_, ?_, ?_⟩
  · unfold flattenIfRGBA
    by_cases h : img.mode = "RGBA"
    · rw [if_pos (by simp [h] : (img.mode == "RGBA") = true), if_pos h]
    · rw [if_neg (by simp [h] : ¬(img.mode == "RGBA") = true), if_neg h]
  · rw [uploadBatch_cons_insert decode lib (n, b) [] hn img hb]
    exact dictGet?_dictSet_self lib n (flattenIfRGBA img)
  · simp only [fetchImage, hbs]
    exact dictGet?_dictSet_self lib _ (flattenIfRGBA imgF)

/-- C5 witness: the amended claim at a concrete RGBA upload and LA fetch. -/
theorem c5_amended_witness :
    (flattenIfRGBA imgRGBA).mode = (if imgRGBA.mode = "RGBA" then "RGB" else imgRGBA.mode) ∧
    dictGet? (uploadBatch sampleDecode [] [("t.png", [4])]).1 "t.png" =
      some (flattenIfRGBA imgRGBA) ∧
    dictGet? (fetchImage sampleDecode [] (.body [3])).1 (urlFilename (dictLen ([] : Library))) =
      some (flattenIfRGBA imgLA) :=
  c5_amended sampleDecode [] "t.png" [4] [3] imgRGBA imgLA (by decide) (by decide) (by decide)

/-- C6 counterexample: at equal byte counts the computed savings is exactly
zero, and the code takes the warning branch (`if savings > 0` is strict), so
a zero savings is reported as a size-increase warning, not as savings. -/
theorem c6_counterexample :
    showsSizeIncreaseWarning 2048 2048 = true ∧ savingsKB 2048 2048 = 0 := by
  constructor
  · simp [showsSizeIncreaseWarning, savingsKB]
  · simp [savingsKB]

/-- C6 amended: the size-increase warning is shown exactly when the computed
savings is non-positive; in particular a savings of zero produces the
warning. -/
theorem c6_amended (o n : Nat) :
    showsSizeIncreaseWarning o n = true ↔ savingsKB o n ≤ 0 := by
  unfold showsSizeIncreaseWarning
  by_cases h : savingsKB o n > 0
  · rw [if_pos h]
    constructor
    · intro hf
      exact Bool.noConfusion hf
    · intro hle
      exact absurd h (not_lt.mpr hle)
  · rw [if_neg h]
    constructor
    · intro _
      exact not_lt.mp h
    · intro _
      rfl

/-- C7: every failing URL-ingestion attempt — connection error, HTTP error
status, or undecodable body — is caught inside the handler's `try` block,
surfaced as the error message (flag `false`), and leaves the library exactly
unchanged. -/
theorem c7_fetch_failure_atomic (decode : Decoder) (lib : Library) (oc : FetchOutcome)
    (hfail : oc = .connError ∨ (∃ s, oc = .httpError s) ∨
      ∃ bs, oc = .body bs ∧ decode bs = none) :
    fetchImage decode lib oc = (lib, false) := by
  rcases hfail with rfl | ⟨s, rfl⟩ | ⟨bs, rfl, hd⟩
  · rfl
  · rfl
  · simp [fetchImage, hd]

/-- C7 witness: the spec's scenario of a fetch answered by a 500 status
against a non-empty library. -/
theorem c7_witness :
    fetchImage sampleDecode [("a.png", imgRGB)] (FetchOutcome.httpError 500) =
      ([("a.png", imgRGB)], false) :=
  c7_fetch_failure_atomic sampleDecode [("a.png", imgRGB)] (FetchOutcome.httpError 500)
    (Or.inr (Or.inl ⟨500, rfl⟩))

/-- C8: the download filename is `IMGROR_` plus the selected name with its
final extension segment removed (split on the final `.`; if no `.` is
present the whole name is used) plus `.jpg`; in particular `photo.png`,
`noext` and `a.b.c` derive as the specification states. -/
theorem c8_filename_derivation :
    (∀ p q : String, q.data.contains '.' = false →
      finalFilename (p ++ "." ++ q) = "IMGROR_" ++ p ++ ".jpg") ∧
    (∀ s : String, s.data.contains '.' = false →
      finalFilename s = "IMGROR_" ++ s ++ ".jpg") ∧
    finalFilename "photo.png" = "IMGROR_photo.jpg" ∧
    finalFilename "noext" = "IMGROR_noext.jpg" ∧
    finalFilename "a.b.c" = "IMGROR_a.b.jpg" := by
  refine ⟨?_, ?_, by decide, by decide, by decide⟩
  · intro p q hq
    unfold finalFilename
    rw [rsplitLastHead_split p q hq]
  · intro s hs
    unfold finalFilename
    rw [rsplitLastHead_nodot s hs]

/-- C8 witness: the general derivation rule applied to `photo` and `png`. -/
theorem c8_witness :
    finalFilename ("photo" ++ "." ++ "png") = "IMGROR_" ++ "photo" ++ ".jpg" :=
  c8_filename_derivation.1 "photo" "png" (by decide)

/-- C9: uploading the same `(name, bytes)` pair twice leaves the library with
exactly one entry for that name, and the second call is a no-op on the
library state (it reports no failure and returns the state unchanged). -/
theorem c9_idempotent_insert (decode : Decoder) (lib : Library) (n : String) (b : Bytes)
    (img : PILImage) (hnd : (dictKeys lib).Nodup) (hdec : decode b = some img) :
    uploadBatch decode (uploadBatch decode lib [(n, b)]).1 [(n, b)] =
      ((uploadBatch decode lib [(n, b)]).1, none) ∧
    (entriesFor (uploadBatch decode lib [(n, b)]).1 n).length = 1 := by
  cases hc : dictContains lib n
  · have hone : (uploadBatch decode lib [(n, b)]).1 = dictSet lib n (flattenIfRGBA img) := by
      rw [uploadBatch_cons_insert decode lib (n, b) [] hc img hdec]
      rfl
    have hcontains : dictContains (dictSet lib n (flattenIfRGBA img)) n = true :=
      (dictContains_dictSet_iff _ _ _ _).mpr (Or.inl rfl)
    constructor
    · rw [hone, uploadBatch_cons_skip decode _ (n, b) [] hcontains]
      rfl
    · rw [hone]
      apply entriesFor_length_one n _ _ hcontains
      rw [dictKeys_dictSet, hc]
      simp only [Bool.false_eq_true, if_false]
      have hnin : n ∉ dictKeys lib := fun hm => by
        rw [(dictContains_iff_mem lib n).mpr hm] at hc
        cases hc
      simp [List.nodup_append, hnd, hnin]
  · have hone : (uploadBatch decode lib [(n, b)]).1 = lib := by
      rw [uploadBatch_cons_skip decode lib (n, b) [] hc]
      rfl
    constructor
    · rw [hone, uploadBatch_cons_skip decode lib (n, b) [] hc]
      rfl
    · rw [hone]
      exact entriesFor_length_one n lib hnd hc

/-- C9 witness: the idempotent insert at a concrete pair on the empty
library. -/
theorem c9_witness :
    uploadBatch sampleDecode (uploadBatch sampleDecode [] [("a.png", [1])]).1 [("a.png", [1])] =
      ((uploadBatch sampleDecode [] [("a.png", [1])]).1, none) ∧
    (entriesFor (uploadBatch sampleDecode [] [("a.png", [1])]).1 "a.png").length = 1 :=
  c9_idempotent_insert sampleDecode [] "a.png" [1] imgRGB (by decide) (by decide)

/-- C10: a name present among the library's keys at any point of a session is
still present at every later point (entries are only added, never removed),
so looking it up succeeds and the `NotFoundError` branch is unreachable. -/
theorem c10_selection_lookup_safe (decode : Decoder) (steps more : List SessionStep)
    (name : String) (h : name ∈ dictKeys (runSession decode [] steps)) :
    (dictGet? (runSession decode [] (steps ++ more)) name).isSome = true := by
  rw [dictGet?_isSome_iff, runSession_append]
  exact runSession_contains_mono decode more _ name
    ((dictContains_iff_mem _ _).mpr h)

/-- C10 witness: a name uploaded in the first step is still found after a
later fetch. -/
theorem c10_witness :
    (dictGet? (runSession sampleDecode []
      ([SessionStep.upload [("a.png", [1])]] ++ [SessionStep.fetch (.body [2])]))
      "a.png").isSome = true :=
  c10_selection_lookup_safe sampleDecode [SessionStep.upload [("a.png", [1])]]
    [SessionStep.fetch (.body [2])] "a.png" (by decide)

end ImagrorTool
